import Mathlib

/-!
Verification of the configuration-realization layer of a distributed
datalog deployment (`instantiate.rs`).

The Rust source is shallowly embedded:

* `BTreeMap k v` is modelled as a `List (k × v)` iterated in list order
  (for a well-formed map the list is sorted by key, mirroring the
  ascending iteration order of a `BTreeMap`); `BTreeSet RelCfg` is a
  `List RelCfg`.
* `HashMap RelId RelId` (the redirect map) is modelled through its only
  observation, lookup, as a function `RelId → Option RelId`.
* `HashSet RelId` is modelled as `Finset Nat`.
* The effectful collaborators (engine start, TCP connect with retry,
  subscriptions, file creation, receiver binding) are abstracted as an
  environment record `Env` of fallible operations; the orchestration
  functions thread their state explicitly and return `Except String _`
  exactly where the Rust returns `Result<_, String>`.
-/

namespace DDlog

/-- `RelId`: integer id of a relation in the computation program. -/
abbrev RelId := Nat

/-- Physical address of a member node (`Addr`); modelled abstractly. -/
abbrev Addr := Nat

/-- Logical node identifier (`Node`, a UUID in the source). -/
abbrev Node := Nat

/-- External file descriptor (`PathBuf` in the source), modelled as an
abstract linearly ordered identifier: the only operations the source
performs on paths are equality, the `BTreeMap` ordering, and display.
Concrete scenarios number their descriptors so that the numeric order
agrees with the lexicographic order of the original file names. -/
abbrev Path := Nat

/-- `RelCfg`: the directive attached to a relation id in a node
configuration. -/
inductive RelCfg where
  | Input : RelId → RelCfg
  | Source : Path → RelCfg
  | Sink : Path → RelCfg
deriving DecidableEq

/-- `NodeCfg`: mapping from relation id to its set of directives. -/
abbrev NodeCfg := List (RelId × List RelCfg)

/-- `SysCfg`: mapping from logical node to its node configuration. -/
abbrev SysCfg := List (Node × NodeCfg)

/-- `Assignment`: mapping from logical node to physical address. -/
abbrev Assignment := List (Node × Addr)

/-- `Outputs`: mapping from member address to relation ids streamed to
that address. -/
abbrev Outputs := List (Addr × Finset RelId)

/-- Lookup in an association list, the observation of `BTreeMap::get`. -/
def alLookup {κ β : Type} [DecidableEq κ] (k : κ) : List (κ × β) → Option β
  | [] => none
  | p :: rest => if k = p.1 then some p.2 else alLookup k rest

/-- Order-preserving insertion, the effect of `BTreeMap::insert` /
`entry` on the sorted entry list. -/
def mapInsert {κ β : Type} [LinearOrder κ] (k : κ) (v : β) : List (κ × β) → List (κ × β)
  | [] => [(k, v)]
  | p :: rest =>
    if k < p.1 then (k, v) :: p :: rest
    else if k = p.1 then (k, v) :: rest
    else p :: mapInsert k v rest

/-- `map.entry(k).or_default().insert(r)`: add `r` to the set stored
under `k`, creating the entry if absent. -/
def updMap {κ : Type} [LinearOrder κ] (m : List (κ × Finset Nat)) (k : κ) (r : Nat) :
    List (κ × Finset Nat) :=
  mapInsert k (insert r ((alLookup k m).getD ∅)) m

theorem alLookup_mapInsert_self {κ β : Type} [LinearOrder κ] (k : κ) (v : β)
    (m : List (κ × β)) : alLookup k (mapInsert k v m) = some v := by
  induction m with
  | nil => simp [mapInsert, alLookup]
  | cons p rest ih =>
    by_cases hlt : k < p.1
    · simp [mapInsert, hlt, alLookup]
    · by_cases heq : k = p.1
      · simp [mapInsert, hlt, heq, alLookup]
      · simp [mapInsert, hlt, heq, alLookup, ih]

theorem alLookup_mapInsert_ne {κ β : Type} [LinearOrder κ] (a k : κ) (v : β)
    (m : List (κ × β)) (h : a ≠ k) : alLookup a (mapInsert k v m) = alLookup a m := by
  induction m with
  | nil => simp [mapInsert, alLookup, h]
  | cons p rest ih =>
    by_cases hlt : k < p.1
    · simp [mapInsert, hlt, alLookup, h]
    · by_cases heq : k = p.1
      · subst heq
        simp [mapInsert, hlt, alLookup, h]
      · by_cases hap : a = p.1
        · simp [mapInsert, hlt, heq, alLookup, hap]
        · simp [mapInsert, hlt, heq, alLookup, hap, ih]

theorem alLookup_updMap_self {κ : Type} [LinearOrder κ] (m : List (κ × Finset Nat))
    (k : κ) (r : Nat) :
    alLookup k (updMap m k r) = some (insert r ((alLookup k m).getD ∅)) :=
  alLookup_mapInsert_self _ _ _

theorem alLookup_updMap_ne {κ : Type} [LinearOrder κ] (m : List (κ × Finset Nat))
    (a k : κ) (r : Nat) (h : a ≠ k) : alLookup a (updMap m k r) = alLookup a m :=
  alLookup_mapInsert_ne _ _ _ _ h

/-- After `updMap m k r`, the set under `k` contains `r`. -/
theorem mem_updMap_self {κ : Type} [LinearOrder κ] (m : List (κ × Finset Nat))
    (k : κ) (r : Nat) : ∃ S, alLookup k (updMap m k r) = some S ∧ r ∈ S :=
  ⟨_, alLookup_updMap_self m k r, Finset.mem_insert_self r _⟩

/-- `updMap` never removes a member from any key's set. -/
theorem mem_updMap_mono {κ : Type} [LinearOrder κ] (m : List (κ × Finset Nat))
    (a k : κ) (x r : Nat) (h : ∃ S, alLookup a m = some S ∧ x ∈ S) :
    ∃ S, alLookup a (updMap m k r) = some S ∧ x ∈ S := by
  obtain ⟨S, hS, hx⟩ := h
  by_cases hak : a = k
  · subst hak
    refine ⟨_, alLookup_updMap_self m a r, ?_⟩
    rw [hS]
    exact Finset.mem_insert_of_mem hx
  · exact ⟨S, by rw [alLookup_updMap_ne m a k r hak]; exact hS, hx⟩

/-- A key absent before an `updMap` at a different key is still absent. -/
theorem alLookup_updMap_none {κ : Type} [LinearOrder κ] (m : List (κ × Finset Nat))
    (a k : κ) (r : Nat) (hne : k ≠ a) (h : alLookup a m = none) :
    alLookup a (updMap m k r) = none := by
  rw [alLookup_updMap_ne m a k r (fun hh => hne hh.symm)]
  exact h

/-- Fold invariant preservation. -/
theorem foldl_pres {α β : Type} {P : β → Prop} (f : β → α → β) :
    ∀ (l : List α) (init : β), (∀ b a, a ∈ l → P b → P (f b a)) → P init →
      P (l.foldl f init)
  | [], _, _, hinit => hinit
  | a :: rest, init, hstep, hinit =>
    foldl_pres f rest (f init a)
      (fun b x hx hb => hstep b x (List.mem_cons_of_mem a hx) hb)
      (hstep init a (List.mem_cons_self a rest) hinit)

/-- Fold establishment: if some element of the list establishes `P` from
any state and every element preserves `P`, the fold satisfies `P`. -/
theorem foldl_est {α β : Type} {P : β → Prop} (f : β → α → β) :
    ∀ (l : List α) (init : β) (a₀ : α), a₀ ∈ l → (∀ b, P (f b a₀)) →
      (∀ b a, a ∈ l → P b → P (f b a)) → P (l.foldl f init)
  | [], _, _, hmem, _, _ => absurd hmem (List.not_mem_nil _)
  | a :: rest, init, a₀, hmem, hest, hstep => by
    rcases List.mem_cons.mp hmem with h | h
    · subst h
      exact foldl_pres f rest (f init a₀)
        (fun b x hx hb => hstep b x (List.mem_cons_of_mem a₀ hx) hb) (hest init)
    · exact foldl_est f rest (f init a) a₀ h hest
        (fun b x hx hb => hstep b x (List.mem_cons_of_mem a hx) hb)

/-! ## Output deduction (`deduce_outputs`) -/

/-- Innermost loop body of `deduce_outputs`: handle one directive of a
relation on the remote node at `oaddr`, while processing local relation
`rel`. -/
def outCfgStep (rel : RelId) (oaddr : Addr) (outputs : Outputs) (rel_cfg : RelCfg) :
    Outputs :=
  match rel_cfg with
  | RelCfg.Input input => if input = rel then updMap outputs oaddr input else outputs
  | RelCfg.Source _ => outputs
  | RelCfg.Sink _ => outputs

/-- Process all directives of one remote relation. -/
def outCfgsStep (rel : RelId) (oaddr : Addr) (outputs : Outputs)
    (rel_cfgs : List RelCfg) : Outputs :=
  rel_cfgs.foldl (outCfgStep rel oaddr) outputs

/-- Process one remote node's configuration (its directive sets, i.e.
`node_cfg.values()`). -/
def outNodeStep (rel : RelId) (outputs : Outputs) (q : Addr × NodeCfg) : Outputs :=
  (q.2.map Prod.snd).foldl (outCfgsStep rel q.1) outputs

/-- The remote nodes scanned by `deduce_outputs`: every entry of the
system configuration whose assigned address exists and differs from
`addr`, paired with that address. -/
def othersOf (addr : Addr) (sys_cfg : SysCfg) (assignment : Assignment) :
    List (Addr × NodeCfg) :=
  sys_cfg.filterMap (fun p =>
    (alLookup p.1 assignment).bind (fun other_addr =>
      if other_addr ≠ addr then some (other_addr, p.2) else none))

/-- Outer loop body of `deduce_outputs`: scan all remote nodes for
`Input(rel)` directives. -/
def outRelStep (addr : Addr) (sys_cfg : SysCfg) (assignment : Assignment)
    (outputs : Outputs) (rel : RelId) : Outputs :=
  (othersOf addr sys_cfg assignment).foldl (outNodeStep rel) outputs

/-- `deduce_outputs`: for every local relation, record it under the
address of every differently-assigned node declaring it as input. -/
def deduce_outputs (addr : Addr) (node_cfg : NodeCfg) (sys_cfg : SysCfg)
    (assignment : Assignment) : Outputs :=
  (node_cfg.map Prod.fst).foldl (outRelStep addr sys_cfg assignment) []

/-! ## Redirect deduction (`deduce_redirects`) -/

/-- One directive step of `deduce_redirects`: an `Input(input)` directive
under relation `rel` inserts `input ↦ rel` into the redirect map. -/
def redCfgStep (rel : RelId) (redirects : RelId → Option RelId) (rel_cfg : RelCfg) :
    RelId → Option RelId :=
  match rel_cfg with
  | RelCfg.Input input => fun k => if k = input then some rel else redirects k
  | RelCfg.Source _ => redirects
  | RelCfg.Sink _ => redirects

/-- `deduce_redirects`: fold the node configuration, inserting one
redirect per `Input` directive (later insertions overwrite earlier
ones). -/
def deduce_redirects (config : NodeCfg) : RelId → Option RelId :=
  config.foldl (fun redirects p => p.2.foldl (redCfgStep p.1) redirects) (fun _ => none)

/-- The relation ids declaring `Input(s)`, in configuration iteration
order. -/
def inputRels (config : NodeCfg) (s : RelId) : List RelId :=
  config.filterMap (fun p => if RelCfg.Input s ∈ p.2 then some p.1 else none)

/-! ## Sink/source deduction (`deduce_sinks_or_sources`) -/

/-- One directive step of `deduce_sinks_or_sources`: a directive of the
requested mode files `relid` under its descriptor. -/
def sinkCfgStep (sinks : Bool) (relid : RelId) (map : List (Path × Finset RelId))
    (rel_cfg : RelCfg) : List (Path × Finset RelId) :=
  match rel_cfg with
  | RelCfg.Sink path => if sinks then updMap map path relid else map
  | RelCfg.Source path => if !sinks then updMap map path relid else map
  | RelCfg.Input _ => map

/-- `deduce_sinks_or_sources`: group relation ids by shared file
descriptor, for sinks (`sinks = true`) or sources (`sinks = false`). -/
def deduce_sinks_or_sources (node_cfg : NodeCfg) (sinks : Bool) :
    List (Path × Finset RelId) :=
  node_cfg.foldl (fun map p => p.2.foldl (sinkCfgStep sinks p.1) map) []

/-- `declares cfg r c`: relation `r` carries directive `c` in `cfg`. -/
def declares (node_cfg : NodeCfg) (r : RelId) (c : RelCfg) : Prop :=
  ∃ cfgs, (r, cfgs) ∈ node_cfg ∧ c ∈ cfgs

/-! ## Orchestration model

The collaborator ports (engine start, TCP connect with bounded retry,
stream subscription, file creation, receiver binding, multiplexer
registration) are abstracted as an environment of fallible operations;
handles are numeric ids. -/

/-- A consumer subscribed to one of the server's restricted output
streams: a connected TCP sender or a file sink. -/
inductive OutChan where
  | tcp : Nat → OutChan
  | file : Path → OutChan
deriving DecidableEq

/-- An input source registered with the transaction multiplexer: a TCP
receiver or a file source. -/
inductive InChan where
  | tcp : Nat → InChan
  | file : Path → InChan
deriving DecidableEq

/-- Collaborator ports, as consulted by the orchestration code. -/
structure Env where
  /-- `P::run(workers, do_store, cb)`: start the engine, yielding a
  program handle. -/
  run : Nat → Bool → Except String Nat
  /-- `TcpSender::with_retry(addr, timeout, interval)` (durations in
  milliseconds), yielding a sender handle. -/
  connect : Addr → Nat → Nat → Except String Nat
  /-- Whether `stream.subscribe(tcp_sender)` succeeds. -/
  subTcp : Nat → Bool
  /-- Whether `txnmux.subscribe(server)` succeeds. -/
  muxSubscribe : Bool
  /-- `File::create(path)`. -/
  fileCreate : Path → Except String Unit
  /-- Whether `stream.subscribe(file_sink)` succeeds. -/
  subSink : Path → Bool
  /-- `TcpReceiver::new(addr)`, yielding a receiver handle. -/
  bindReceiver : Addr → Except String Nat
  /-- Whether `txnmux.add_observable(receiver)` succeeds. -/
  addObsTcp : Nat → Bool
  /-- Whether `txnmux.add_observable(file_source)` succeeds. -/
  addObsFile : Path → Bool

/-- The `DDlogServer` wrapping a started engine: the program handle with
the parameters the engine was started with, the installed redirect map,
and the restricted output streams subscribed so far. -/
structure DDlogServer where
  program : Nat
  workers : Nat
  replay : Bool
  redirects : RelId → Option RelId
  streams : List (Finset RelId × OutChan)

/-- The transaction multiplexer with its subscribed server and its
registered input sources. -/
structure TxnMux where
  server : DDlogServer
  inputs : List InChan

/-- `Realization`: owner of one realized pipeline (its multiplexer). -/
structure Realization where
  txnmux : TxnMux

/-- `create_server`: deduce the redirects, start the engine with two
workers, and wrap it in a `DDlogServer` with the redirects installed
and nothing attached. -/
def create_server (env : Env) (node_cfg : NodeCfg) : Except String DDlogServer :=
  let redirects := deduce_redirects node_cfg
  match env.run 2 false with
  | Except.error e => Except.error e
  | Except.ok program =>
      Except.ok { program := program, workers := 2, replay := false,
                  redirects := redirects, streams := [] }

/-- `Duration::from_secs(30)` in milliseconds. -/
def connTimeoutMs : Nat := 30 * 1000

/-- `Duration::from_millis(500)`. -/
def connIntervalMs : Nat := 500

/-- Loop of `add_tcp_senders` (`try_for_each` over the output map):
connect to each remote address with bounded retry and subscribe the
sender to a stream restricted to that entry's relation ids. -/
def tcpSendersLoop (env : Env) (server : DDlogServer) :
    List (Addr × Finset RelId) → Except String DDlogServer
  | [] => Except.ok server
  | p :: rest =>
    match env.connect p.1 connTimeoutMs connIntervalMs with
    | Except.error e =>
        Except.error ("failed to connect to node " ++ toString p.1 ++ ": " ++ e)
    | Except.ok sender =>
        if env.subTcp sender then
          tcpSendersLoop env
            { server with streams := server.streams ++ [(p.2, OutChan.tcp sender)] } rest
        else
          Except.error "failed to subscribe TCP sender"

/-- `add_tcp_senders`: one TCP sender per output-map entry. -/
def add_tcp_senders (env : Env) (server : DDlogServer) (outputs : Outputs) :
    Except String DDlogServer :=
  tcpSendersLoop env server outputs

/-- Loop of `add_file_sinks` over the deduced sink map: create each
file and subscribe a sink for it to a stream restricted to the
descriptor's relation ids. -/
def fileSinksLoop (env : Env) (server : DDlogServer) :
    List (Path × Finset RelId) → Except String DDlogServer
  | [] => Except.ok server
  | p :: rest =>
    match env.fileCreate p.1 with
    | Except.error e =>
        Except.error ("failed to create file " ++ toString p.1 ++ ": " ++ e)
    | Except.ok _ =>
        if env.subSink p.1 then
          fileSinksLoop env
            { server with streams := server.streams ++ [(p.2, OutChan.file p.1)] } rest
        else
          Except.error ("failed to subscribe file sink " ++ toString p.1 ++
            " to DDlogServer")

/-- `add_file_sinks`: file sinks for all deduced sink descriptors. -/
def add_file_sinks (env : Env) (server : DDlogServer) (node_cfg : NodeCfg) :
    Except String DDlogServer :=
  fileSinksLoop env server (deduce_sinks_or_sources node_cfg true)

/-- `create_txn_mux`: wrap the server as the single consumer of a fresh
transaction multiplexer. -/
def create_txn_mux (env : Env) (server : DDlogServer) : Except String TxnMux :=
  if env.muxSubscribe then
    Except.ok { server := server, inputs := [] }
  else
    Except.error "failed to subscribe DDlogServer to TxnMux"

/-- `add_tcp_receiver`: bind a receiver to the local address and
register it with the multiplexer. -/
def add_tcp_receiver (env : Env) (txnmux : TxnMux) (addr : Addr) :
    Except String TxnMux :=
  match env.bindReceiver addr with
  | Except.error e => Except.error ("failed to create TcpReceiver: " ++ e)
  | Except.ok receiver =>
      if env.addObsTcp receiver then
        Except.ok { txnmux with inputs := txnmux.inputs ++ [InChan.tcp receiver] }
      else
        Except.error "failed to register TcpReceiver with TxnMux"

/-- Loop of `add_file_sources` over the deduced source map: register a
file source per descriptor with the multiplexer. -/
def fileSourcesLoop (env : Env) (txnmux : TxnMux) :
    List (Path × Finset RelId) → Except String TxnMux
  | [] => Except.ok txnmux
  | p :: rest =>
      if env.addObsFile p.1 then
        fileSourcesLoop env
          { txnmux with inputs := txnmux.inputs ++ [InChan.file p.1] } rest
      else
        Except.error ("failed to add file source " ++ toString p.1 ++ " to TxnMux")

/-- `add_file_sources`: file sources for all deduced source
descriptors. -/
def add_file_sources (env : Env) (txnmux : TxnMux) (node_cfg : NodeCfg) :
    Except String TxnMux :=
  fileSourcesLoop env txnmux (deduce_sinks_or_sources node_cfg false)

/-- `realize`: compose one live local pipeline; any failing step aborts
the whole orchestration. -/
def realize (env : Env) (addr : Addr) (node_cfg : NodeCfg) (outputs : Outputs) :
    Except String Realization :=
  match create_server env node_cfg with
  | Except.error e => Except.error e
  | Except.ok server =>
    match add_tcp_senders env server outputs with
    | Except.error e => Except.error e
    | Except.ok server =>
      match add_file_sinks env server node_cfg with
      | Except.error e => Except.error e
      | Except.ok server =>
        match create_txn_mux env server with
        | Except.error e => Except.error e
        | Except.ok txnmux =>
          match add_tcp_receiver env txnmux addr with
          | Except.error e => Except.error e
          | Except.ok txnmux =>
            match add_file_sources env txnmux node_cfg with
            | Except.error e => Except.error e
            | Except.ok txnmux => Except.ok { txnmux := txnmux }

/-- The node configurations selected by `instantiate`: one per
assignment entry mapped to `addr` that has a configuration in the
system configuration (in assignment iteration order). -/
def selectCfgs (sys_cfg : SysCfg) (addr : Addr) (assignment : Assignment) :
    List NodeCfg :=
  assignment.filterMap (fun p => if p.2 = addr then alLookup p.1 sys_cfg else none)

/-- `realize` as invoked by `instantiate` for one selected node
configuration, with its outputs deduced from the full system
configuration and assignment. -/
def realizeFor (env : Env) (sys_cfg : SysCfg) (addr : Addr)
    (assignment : Assignment) (node_cfg : NodeCfg) : Except String Realization :=
  realize env addr node_cfg (deduce_outputs addr node_cfg sys_cfg assignment)

/-- Loop of `instantiate` (`try_fold`): realize each selected node,
accumulating the realizations; the first failure aborts. -/
def instLoop (env : Env) (sys_cfg : SysCfg) (addr : Addr) (assignment : Assignment)
    (accumulator : List Realization) : List NodeCfg → Except String (List Realization)
  | [] => Except.ok accumulator
  | node_cfg :: rest =>
    match realizeFor env sys_cfg addr assignment node_cfg with
    | Except.error e => Except.error e
    | Except.ok realization =>
        instLoop env sys_cfg addr assignment (accumulator ++ [realization]) rest

/-- `instantiate`: realize every logical node assigned to `addr`. -/
def instantiate (env : Env) (sys_cfg : SysCfg) (addr : Addr)
    (assignment : Assignment) : Except String (List Realization) :=
  instLoop env sys_cfg addr assignment [] (selectCfgs sys_cfg addr assignment)

/-! ## Concrete scenarios and environments -/

/-- Descriptor of `input.cmd` in Scenario A. -/
def inputCmd : Path := 0

/-- Scenario A, node0: `{0: Source(file "input.cmd")}`. -/
def nodeXCfg : NodeCfg := [(0, [RelCfg.Source inputCmd])]

/-- Scenario A, node1: `{1: Input(0)}`. -/
def nodeYCfg : NodeCfg := [(1, [RelCfg.Input 0])]

/-- Scenario A system configuration: node0 and node1. -/
def sysA : SysCfg := [(0, nodeXCfg), (1, nodeYCfg)]

/-- Scenario A assignment: node0 at X (= 100), node1 at Y (= 200). -/
def asgA : Assignment := [(0, 100), (1, 200)]

/-- Descriptor of `input.dat` in Scenario B. -/
def inputDat : Path := 0

/-- Descriptor of `out.dump` in Scenario B. -/
def outDump : Path := 1

/-- Descriptor of `out3.dump` in Scenario B. -/
def out3Dump : Path := 2

/-- Scenario B node configuration (sink grouping). -/
def scenarioB : NodeCfg :=
  [ (0, [RelCfg.Source inputDat, RelCfg.Sink outDump]),
    (1, [RelCfg.Input 2, RelCfg.Input 4]),
    (2, [RelCfg.Sink outDump]),
    (3, [RelCfg.Sink out3Dump, RelCfg.Input 0]) ]

/-- An environment in which every collaborator port succeeds. -/
def envOk : Env :=
  { run := fun _ _ => Except.ok 0,
    connect := fun a _ _ => Except.ok a,
    subTcp := fun _ => true,
    muxSubscribe := true,
    fileCreate := fun _ => Except.ok (),
    subSink := fun _ => true,
    bindReceiver := fun a => Except.ok a,
    addObsTcp := fun _ => true,
    addObsFile := fun _ => true }

/-- An environment whose engine fails to start. -/
def envBad : Env :=
  { envOk with run := fun _ _ => Except.error "engine" }

/-- An environment whose outbound TCP connections all fail. -/
def envNoConn : Env :=
  { envOk with connect := fun _ _ _ => Except.error "refused" }

/-! ## Output deduction: invariants (C1, C2) -/

/-- Every scanned remote node carries an address that exists in the
assignment and differs from the querying address. -/
theorem mem_othersOf {addr : Addr} {sys_cfg : SysCfg} {assignment : Assignment}
    {q : Addr × NodeCfg} (h : q ∈ othersOf addr sys_cfg assignment) :
    q.1 ≠ addr ∧ ∃ uuid, (uuid, q.2) ∈ sys_cfg ∧ alLookup uuid assignment = some q.1 := by
  obtain ⟨p, hp, heq⟩ := List.mem_filterMap.mp h
  cases hl : alLookup p.1 assignment with
  | none => rw [hl] at heq; cases heq
  | some other_addr =>
    rw [hl, Option.some_bind] at heq
    by_cases hne : other_addr ≠ addr
    · rw [if_pos hne] at heq
      cases heq
      exact ⟨hne, p.1, hp, hl⟩
    · rw [if_neg hne] at heq
      cases heq

/-- Introduction for membership in the scanned remote nodes. -/
theorem mem_othersOf_intro {addr a2 : Addr} {sys_cfg : SysCfg}
    {assignment : Assignment} {uuid : Node} {ncfg : NodeCfg}
    (hsys : (uuid, ncfg) ∈ sys_cfg) (hasg : alLookup uuid assignment = some a2)
    (hne : a2 ≠ addr) : (a2, ncfg) ∈ othersOf addr sys_cfg assignment := by
  refine List.mem_filterMap.mpr ⟨(uuid, ncfg), hsys, ?_⟩
  simp [hasg, hne]

/-- A directive step at a foreign address keeps the querying address
absent from the output map. -/
theorem outCfgStep_pres_none {addr oaddr : Addr} {rel : RelId} {outputs : Outputs}
    (hne : oaddr ≠ addr) (h : alLookup addr outputs = none) (c : RelCfg) :
    alLookup addr (outCfgStep rel oaddr outputs c) = none := by
  cases c with
  | Input input =>
    by_cases hir : input = rel
    · simpa [outCfgStep, hir] using alLookup_updMap_none outputs addr oaddr input hne h
    · simpa [outCfgStep, hir] using h
  | Source p => simpa [outCfgStep] using h
  | Sink p => simpa [outCfgStep] using h

/-- Scanning one remote node keeps the querying address absent. -/
theorem outNodeStep_pres_none {addr : Addr} {rel : RelId} {outputs : Outputs}
    {q : Addr × NodeCfg} (hne : q.1 ≠ addr) (h : alLookup addr outputs = none) :
    alLookup addr (outNodeStep rel outputs q) = none := by
  unfold outNodeStep
  refine foldl_pres (P := fun m => alLookup addr m = none) _ _ outputs
    (fun b cfgs _ hb => ?_) h
  unfold outCfgsStep
  exact foldl_pres (P := fun m => alLookup addr m = none) _ _ b
    (fun b' c _ hb' => outCfgStep_pres_none hne hb' c) hb

/-- C2: the output map computed by Output Deduction never contains an
entry keyed by the querying address itself — every scanned node's
address differs from it, so a node never streams to itself over the
network path. -/
theorem C2_no_self_output :
    ∀ (addr : Addr) (node_cfg : NodeCfg) (sys_cfg : SysCfg) (assignment : Assignment),
      alLookup addr (deduce_outputs addr node_cfg sys_cfg assignment) = none := by
  intro addr node_cfg sys_cfg assignment
  unfold deduce_outputs
  refine foldl_pres (P := fun m => alLookup addr m = none) _ _ []
    (fun b rel _ hb => ?_) rfl
  unfold outRelStep
  refine foldl_pres (P := fun m => alLookup addr m = none) _ _ b
    (fun b' q hq hb' => ?_) hb
  exact outNodeStep_pres_none (mem_othersOf hq).1 hb'

/-- Any directive step only grows the sets in the output map. -/
theorem outCfgStep_mono {a2 : Addr} {r : RelId} {rel : RelId} {oaddr : Addr}
    {outputs : Outputs} (h : ∃ S, alLookup a2 outputs = some S ∧ r ∈ S) (c : RelCfg) :
    ∃ S, alLookup a2 (outCfgStep rel oaddr outputs c) = some S ∧ r ∈ S := by
  cases c with
  | Input input =>
    by_cases hir : input = rel
    · simpa [outCfgStep, hir] using mem_updMap_mono outputs a2 oaddr r input h
    · simpa [outCfgStep, hir] using h
  | Source p => simpa [outCfgStep] using h
  | Sink p => simpa [outCfgStep] using h

/-- Scanning a remote node only grows the sets in the output map. -/
theorem outNodeStep_mono {a2 : Addr} {r : RelId} {rel : RelId} {outputs : Outputs}
    {q : Addr × NodeCfg} (h : ∃ S, alLookup a2 outputs = some S ∧ r ∈ S) :
    ∃ S, alLookup a2 (outNodeStep rel outputs q) = some S ∧ r ∈ S := by
  unfold outNodeStep
  refine foldl_pres (P := fun m => ∃ S, alLookup a2 m = some S ∧ r ∈ S) _ _ outputs
    (fun b cfgs _ hb => ?_) h
  unfold outCfgsStep
  exact foldl_pres (P := fun m => ∃ S, alLookup a2 m = some S ∧ r ∈ S) _ _ b
    (fun b' c _ hb' => outCfgStep_mono hb' c) hb

/-- Processing the directives of a remote relation that declares
`Input(r)`, while scanning local relation `r` at remote address `a2`,
guarantees `r` in the output set of `a2`. -/
theorem outCfgsStep_est {a2 : Addr} {r : RelId} {cfgs : List RelCfg}
    (hin : RelCfg.Input r ∈ cfgs) (outputs : Outputs) :
    ∃ S, alLookup a2 (outCfgsStep r a2 outputs cfgs) = some S ∧ r ∈ S := by
  unfold outCfgsStep
  refine foldl_est (P := fun m => ∃ S, alLookup a2 m = some S ∧ r ∈ S) _ cfgs outputs
    (RelCfg.Input r) hin (fun b => ?_) (fun b c _ hb => outCfgStep_mono hb c)
  simpa [outCfgStep] using mem_updMap_self b a2 r

/-- Scanning a remote node that declares `Input(r)`, while scanning
local relation `r`, guarantees `r` in the output set of its address. -/
theorem outNodeStep_est {a2 : Addr} {r : RelId} {ncfg2 : NodeCfg}
    {cfgs : List RelCfg} (hp : ∃ p ∈ ncfg2, p.2 = cfgs)
    (hin : RelCfg.Input r ∈ cfgs) (outputs : Outputs) :
    ∃ S, alLookup a2 (outNodeStep r outputs (a2, ncfg2)) = some S ∧ r ∈ S := by
  obtain ⟨p, hpmem, hpc⟩ := hp
  unfold outNodeStep
  refine foldl_est (P := fun m => ∃ S, alLookup a2 m = some S ∧ r ∈ S) _ _ outputs
    cfgs ?_ (fun b => outCfgsStep_est hin b)
    (fun b l _ hb => by
      unfold outCfgsStep
      exact foldl_pres (P := fun m => ∃ S, alLookup a2 m = some S ∧ r ∈ S) _ _ b
        (fun b' c _ hb' => outCfgStep_mono hb' c) hb)
  exact hpc ▸ List.mem_map_of_mem Prod.snd hpmem

/-- C1: whenever a logical node assigned to a different address `a2`
declares `Input(r)` for a relation `r` declared in the node
configuration realized at `a1`, Output Deduction at `a1` yields an
entry for `a2` containing `r`; and in Scenario A, Output Deduction for
X yields exactly the map sending Y to the set containing relation 0,
while for Y it yields the empty map. -/
theorem C1_output_deduction :
    (∀ (a1 : Addr) (node_cfg : NodeCfg) (sys_cfg : SysCfg) (assignment : Assignment)
        (a2 : Addr) (uuid : Node) (ncfg2 : NodeCfg) (r : RelId),
      a2 ≠ a1 →
      r ∈ node_cfg.map Prod.fst →
      (uuid, ncfg2) ∈ sys_cfg →
      alLookup uuid assignment = some a2 →
      (∃ p ∈ ncfg2, RelCfg.Input r ∈ p.2) →
      ∃ S, alLookup a2 (deduce_outputs a1 node_cfg sys_cfg assignment) = some S ∧ r ∈ S)
    ∧ deduce_outputs 100 nodeXCfg sysA asgA = [(200, {0})]
    ∧ deduce_outputs 200 nodeYCfg sysA asgA = [] := by
  refine ⟨?_, by decide, by decide⟩
  intro a1 node_cfg sys_cfg assignment a2 uuid ncfg2 r hne hkey hsys hasg hdecl
  obtain ⟨p, hpmem, hpin⟩ := hdecl
  unfold deduce_outputs
  refine foldl_est (P := fun m => ∃ S, alLookup a2 m = some S ∧ r ∈ S) _ _ [] r hkey
    (fun b => ?_) (fun b rel _ hb => by
      unfold outRelStep
      exact foldl_pres (P := fun m => ∃ S, alLookup a2 m = some S ∧ r ∈ S) _ _ b
        (fun b' q _ hb' => outNodeStep_mono hb') hb)
  unfold outRelStep
  refine foldl_est (P := fun m => ∃ S, alLookup a2 m = some S ∧ r ∈ S) _ _ b
    (a2, ncfg2) (mem_othersOf_intro hsys hasg hne) (fun b' => ?_)
    (fun b' q _ hb' => outNodeStep_mono hb')
  exact outNodeStep_est ⟨p, hpmem, rfl⟩ hpin b'

/-- Witness for C1: the general clause applied to Scenario A, where
node1 (assigned to Y = 200) declares `Input(0)` and relation 0 is
declared in node0's configuration realized at X = 100. -/
theorem C1_output_deduction_witness :
    ∃ S, alLookup 200 (deduce_outputs 100 nodeXCfg sysA asgA) = some S ∧ 0 ∈ S :=
  C1_output_deduction.1 100 nodeXCfg sysA asgA 200 1 nodeYCfg 0
    (by decide) (by decide) (by decide) (by decide)
    ⟨(1, [RelCfg.Input 0]), by decide, by decide⟩

/-! ## Redirect deduction (C3, C9) -/

/-- Folding the directives of one relation over the redirect map: the
result at `s` is `rel` exactly when `Input(s)` occurs among the
directives, and is otherwise unchanged. -/
theorem redCfgsFold (rel : RelId) (cfgs : List RelCfg) (init : RelId → Option RelId)
    (s : RelId) :
    (cfgs.foldl (redCfgStep rel) init) s
      = if RelCfg.Input s ∈ cfgs then some rel else init s := by
  induction cfgs generalizing init with
  | nil => simp
  | cons c rest ih =>
    rw [List.foldl_cons, ih]
    cases c with
    | Input i =>
      by_cases hmem : RelCfg.Input s ∈ rest
      · simp [hmem]
      · by_cases hsi : s = i
        · subst hsi
          simp [hmem, redCfgStep]
        · have : RelCfg.Input s ≠ RelCfg.Input i := fun hh => hsi (by cases hh; rfl)
          simp [hmem, redCfgStep, this, hsi]
    | Source p =>
      by_cases hmem : RelCfg.Input s ∈ rest <;> simp [hmem, redCfgStep]
    | Sink p =>
      by_cases hmem : RelCfg.Input s ∈ rest <;> simp [hmem, redCfgStep]

/-- Folding a configuration over the redirect map: the result at `s` is
the last relation declaring `Input(s)`, falling back to the initial
map. -/
theorem redFold (config : NodeCfg) (init : RelId → Option RelId) (s : RelId) :
    (config.foldl (fun redirects p => p.2.foldl (redCfgStep p.1) redirects) init) s
      = ((inputRels config s).getLast?).or (init s) := by
  induction config generalizing init with
  | nil => simp [inputRels]
  | cons p rest ih =>
    rw [List.foldl_cons, ih, redCfgsFold]
    by_cases hmem : RelCfg.Input s ∈ p.2
    · have hcons : inputRels (p :: rest) s = p.1 :: inputRels rest s := by
        simp [inputRels, hmem]
      rw [hcons]
      cases htail : inputRels rest s with
      | nil => simp [hmem]
      | cons b l' =>
        rw [List.getLast?_cons_cons]
        cases hgl : (b :: l').getLast? with
        | none => exact absurd (List.getLast?_eq_none_iff.mp hgl) (List.cons_ne_nil b l')
        | some x => rfl
    · have hcons : inputRels (p :: rest) s = inputRels rest s := by
        simp [inputRels, hmem]
      rw [hcons, if_neg hmem]

/-- The redirect map at `s` is the last relation declaring `Input(s)`
in configuration iteration order. -/
theorem deduce_redirects_eq_getLast (config : NodeCfg) (s : RelId) :
    deduce_redirects config s = (inputRels config s).getLast? := by
  unfold deduce_redirects
  rw [redFold]
  cases (inputRels config s).getLast? <;> rfl

/-- Membership in `inputRels` is declaring `Input(s)`. -/
theorem mem_inputRels {config : NodeCfg} {s r : RelId} :
    r ∈ inputRels config s ↔ ∃ cfgs, (r, cfgs) ∈ config ∧ RelCfg.Input s ∈ cfgs := by
  constructor
  · intro h
    obtain ⟨p, hp, heq⟩ := List.mem_filterMap.mp h
    by_cases hmem : RelCfg.Input s ∈ p.2
    · rw [if_pos hmem] at heq
      cases heq
      exact ⟨p.2, hp, hmem⟩
    · rw [if_neg hmem] at heq
      cases heq
  · rintro ⟨cfgs, hmem, hin⟩
    exact List.mem_filterMap.mpr ⟨(r, cfgs), hmem, by simp [hin]⟩

/-- C3: for every node configuration, the redirect map sends each
declared input source `s` to a relation declaring `Input(s)`, every
declared `Input(s)` produces an entry at `s`, and the surviving value
is exactly the last relation processed that declares `Input(s)`
(last-write-wins); the computation is total, raising no error. -/
theorem C3_redirect_deduction :
    (∀ (config : NodeCfg) (s : RelId),
       deduce_redirects config s = (inputRels config s).getLast?)
    ∧ (∀ (config : NodeCfg) (s : RelId) (r : RelId) (cfgs : List RelCfg),
       (r, cfgs) ∈ config → RelCfg.Input s ∈ cfgs →
       ∃ r', deduce_redirects config s = some r')
    ∧ (∀ (config : NodeCfg) (s r : RelId),
       deduce_redirects config s = some r →
       ∃ cfgs, (r, cfgs) ∈ config ∧ RelCfg.Input s ∈ cfgs) := by
  refine ⟨deduce_redirects_eq_getLast, ?_, ?_⟩
  · intro config s r cfgs hmem hin
    rw [deduce_redirects_eq_getLast]
    have hr : r ∈ inputRels config s := mem_inputRels.mpr ⟨cfgs, hmem, hin⟩
    cases hgl : (inputRels config s).getLast? with
    | none =>
      rw [List.getLast?_eq_none_iff] at hgl
      rw [hgl] at hr
      cases hr
    | some r' => exact ⟨r', rfl⟩
  · intro config s r h
    rw [deduce_redirects_eq_getLast] at h
    have : r ∈ inputRels config s := by
      have := List.mem_getLast?_eq_getLast (l := inputRels config s) (x := r)
        (by rw [h]; rfl)
      obtain ⟨hne, heq⟩ := this
      exact heq ▸ List.getLast_mem hne
    exact mem_inputRels.mp this

/-- Witness for C3: in a configuration where relations 2 and 5 both
declare `Input(9)`, the surviving redirect for 9 is a relation
declaring `Input(9)`. -/
theorem C3_redirect_deduction_witness :
    ∃ cfgs, ((5 : RelId), cfgs) ∈ ([(2, [RelCfg.Input 9]), (5, [RelCfg.Input 9])] : NodeCfg)
      ∧ RelCfg.Input 9 ∈ cfgs := by
  have h := C3_redirect_deduction.2.2 [(2, [RelCfg.Input 9]), (5, [RelCfg.Input 9])] 9 5
    (by decide)
  obtain ⟨cfgs, hmem, hin⟩ := h
  rcases List.mem_cons.mp hmem with h1 | h1
  · cases h1
  · rcases List.mem_cons.mp h1 with h2 | h2
    · cases h2
      exact ⟨[RelCfg.Input 9], by decide, by decide⟩
    · cases h2

/-- In a configuration whose keys are strictly ascending, the relation
ids declaring `Input(s)` are strictly ascending as well. -/
theorem inputRels_pairwise {config : NodeCfg}
    (hp : List.Pairwise (fun p q => p.1 < q.1) config) (s : RelId) :
    List.Pairwise (· < ·) (inputRels config s) := by
  induction config with
  | nil => exact List.Pairwise.nil
  | cons p rest ih =>
    rcases List.pairwise_cons.mp hp with ⟨hhead, hrest⟩
    by_cases hmem : RelCfg.Input s ∈ p.2
    · have hcons : inputRels (p :: rest) s = p.1 :: inputRels rest s := by
        simp [inputRels, hmem]
      rw [hcons]
      refine List.pairwise_cons.mpr ⟨?_, ih hrest⟩
      intro x hx
      obtain ⟨cfgs, hm, _⟩ := mem_inputRels.mp hx
      exact hhead (x, cfgs) hm
    · have hcons : inputRels (p :: rest) s = inputRels rest s := by
        simp [inputRels, hmem]
      rw [hcons]
      exact ih hrest

/-- The last element of a strictly ascending list is its greatest
element. -/
theorem sorted_getLast?_iff :
    ∀ (l : List RelId), List.Pairwise (· < ·) l → ∀ (r : RelId),
      (l.getLast? = some r ↔ r ∈ l ∧ ∀ x ∈ l, x ≤ r) := by
  intro l
  induction l with
  | nil => intro _ r; simp
  | cons a t ih =>
    intro hp r
    rcases List.pairwise_cons.mp hp with ⟨ha, ht⟩
    cases t with
    | nil =>
      constructor
      · intro h
        have har : a = r := by simpa using h
        subst har
        exact ⟨List.mem_singleton.mpr rfl, fun x hx => le_of_eq (List.mem_singleton.mp hx)⟩
      · rintro ⟨hmem, _⟩
        have hra : r = a := List.mem_singleton.mp hmem
        subst hra
        simp
    | cons b t' =>
      rw [List.getLast?_cons_cons, ih ht r]
      constructor
      · rintro ⟨hmem, hub⟩
        refine ⟨List.mem_cons_of_mem a hmem, ?_⟩
        intro x hx
        rcases List.mem_cons.mp hx with hxa | hx'
        · subst hxa
          exact le_of_lt (ha r hmem)
        · exact hub x hx'
      · rintro ⟨hmem, hub⟩
        rcases List.mem_cons.mp hmem with hra | hmem'
        · subst hra
          have hb : r < b := ha b (List.mem_cons_self b t')
          have hba : b ≤ r := hub b (List.mem_cons_of_mem r (List.mem_cons_self b t'))
          exact absurd hb (not_lt.mpr hba)
        · exact ⟨hmem', fun x hx => hub x (List.mem_cons_of_mem a hx)⟩

/-- C9: when the node configuration's keys are iterated in ascending
relation-id order (the `BTreeMap` invariant), the surviving redirect
for a conflicted source `s` is exactly the numerically largest relation
id declaring `Input(s)`. -/
theorem C9_largest_declarer_wins :
    ∀ (config : NodeCfg) (s r : RelId),
      List.Pairwise (fun p q => p.1 < q.1) config →
      (deduce_redirects config s = some r ↔
        (∃ cfgs, (r, cfgs) ∈ config ∧ RelCfg.Input s ∈ cfgs)
        ∧ ∀ p ∈ config, RelCfg.Input s ∈ p.2 → p.1 ≤ r) := by
  intro config s r hp
  rw [deduce_redirects_eq_getLast,
    sorted_getLast?_iff (inputRels config s) (inputRels_pairwise hp s) r]
  constructor
  · rintro ⟨hmem, hub⟩
    refine ⟨mem_inputRels.mp hmem, ?_⟩
    intro p hpm hin
    exact hub p.1 (mem_inputRels.mpr ⟨p.2, hpm, hin⟩)
  · rintro ⟨hdecl, hub⟩
    refine ⟨mem_inputRels.mpr hdecl, fun x hx => ?_⟩
    obtain ⟨cfgs', hm, hi⟩ := mem_inputRels.mp hx
    exact hub (x, cfgs') hm hi

/-- Witness for C9: relations 1 and 3 both declare `Input(7)` in a
key-sorted configuration; the surviving redirect for 7 is 3, the
larger. -/
theorem C9_largest_declarer_wins_witness :
    deduce_redirects [(1, [RelCfg.Input 7]), (3, [RelCfg.Input 7])] 7 = some 3 :=
  (C9_largest_declarer_wins [(1, [RelCfg.Input 7]), (3, [RelCfg.Input 7])] 7 3
    (by decide)).mpr
    ⟨⟨[RelCfg.Input 7], by decide, by decide⟩, by decide⟩

/-! ## Sink/source deduction (C4) -/

/-- The directive requested by mode `sinks` for descriptor `path`. -/
def modeCfg (sinks : Bool) (path : Path) : RelCfg :=
  cond sinks (RelCfg.Sink path) (RelCfg.Source path)

/-- A sink/source directive step only grows the sets in the map. -/
theorem sinkCfgStep_mono {sinks : Bool} {relid : RelId} {path : Path} {r : RelId}
    {m : List (Path × Finset RelId)}
    (h : ∃ S, alLookup path m = some S ∧ r ∈ S) (c : RelCfg) :
    ∃ S, alLookup path (sinkCfgStep sinks relid m c) = some S ∧ r ∈ S := by
  cases c with
  | Input i => simpa [sinkCfgStep] using h
  | Sink path' =>
    cases sinks with
    | false => simpa [sinkCfgStep] using h
    | true => simpa [sinkCfgStep] using mem_updMap_mono m path path' r relid h
  | Source path' =>
    cases sinks with
    | false => simpa [sinkCfgStep] using mem_updMap_mono m path path' r relid h
    | true => simpa [sinkCfgStep] using h

/-- Soundness of one sink/source directive step: any membership in the
resulting map is justified by a declared directive of the requested
mode. -/
theorem sinkCfgStep_sound {node_cfg : NodeCfg} {sinks : Bool}
    {p : RelId × List RelCfg} (hp : p ∈ node_cfg) {c : RelCfg} (hc : c ∈ p.2)
    {m : List (Path × Finset RelId)}
    (hm : ∀ path r, (∃ S, alLookup path m = some S ∧ r ∈ S) →
      declares node_cfg r (modeCfg sinks path)) :
    ∀ path r, (∃ S, alLookup path (sinkCfgStep sinks p.1 m c) = some S ∧ r ∈ S) →
      declares node_cfg r (modeCfg sinks path) := by
  have hupd : ∀ (path' : Path),
      c = modeCfg sinks path' →
      ∀ path r, (∃ S, alLookup path (updMap m path' p.1) = some S ∧ r ∈ S) →
        declares node_cfg r (modeCfg sinks path) := by
    intro path' hcdir path r hex
    obtain ⟨S, hS, hr⟩ := hex
    by_cases hpp : path = path'
    · subst hpp
      rw [alLookup_updMap_self] at hS
      cases hS
      rcases Finset.mem_insert.mp hr with hrp | hrold
      · subst hrp
        exact ⟨p.2, hp, hcdir ▸ hc⟩
      · cases hl : alLookup path m with
        | none => rw [hl] at hrold; simp at hrold
        | some S₀ =>
          rw [hl] at hrold
          exact hm path r ⟨S₀, hl, by simpa using hrold⟩
    · rw [alLookup_updMap_ne m path path' p.1 hpp] at hS
      exact hm path r ⟨S, hS, hr⟩
  intro path r hex
  cases c with
  | Input i => exact hm path r (by simpa [sinkCfgStep] using hex)
  | Sink path' =>
    cases sinks with
    | false => exact hm path r (by simpa [sinkCfgStep] using hex)
    | true =>
      exact hupd path' rfl path r (by simpa [sinkCfgStep] using hex)
  | Source path' =>
    cases sinks with
    | false =>
      exact hupd path' rfl path r (by simpa [sinkCfgStep] using hex)
    | true => exact hm path r (by simpa [sinkCfgStep] using hex)

/-- Soundness of sink/source deduction: a relation appears under a
descriptor only if it declares a directive of the requested mode with
that descriptor. -/
theorem sinks_sound (node_cfg : NodeCfg) (sinks : Bool) :
    ∀ (path : Path) (r : RelId),
      (∃ S, alLookup path (deduce_sinks_or_sources node_cfg sinks) = some S ∧ r ∈ S) →
      declares node_cfg r (modeCfg sinks path) := by
  unfold deduce_sinks_or_sources
  refine foldl_pres
    (P := fun m => ∀ path r, (∃ S, alLookup path m = some S ∧ r ∈ S) →
      declares node_cfg r (modeCfg sinks path)) _ _ []
    (fun b p hp hb => ?_) (fun path r hex => by obtain ⟨S, hS, _⟩ := hex; cases hS)
  refine foldl_pres
    (P := fun m => ∀ path r, (∃ S, alLookup path m = some S ∧ r ∈ S) →
      declares node_cfg r (modeCfg sinks path)) _ _ b
    (fun b' c hc hb' => ?_) hb
  exact sinkCfgStep_sound hp hc hb'

/-- Completeness of sink/source deduction: a declared directive of the
requested mode puts its relation under its descriptor. -/
theorem sinks_complete {node_cfg : NodeCfg} {sinks : Bool} {path : Path} {r : RelId}
    (h : declares node_cfg r (modeCfg sinks path)) :
    ∃ S, alLookup path (deduce_sinks_or_sources node_cfg sinks) = some S ∧ r ∈ S := by
  obtain ⟨cfgs, hmem, hin⟩ := h
  unfold deduce_sinks_or_sources
  refine foldl_est (P := fun m => ∃ S, alLookup path m = some S ∧ r ∈ S) _ _ []
    (r, cfgs) hmem (fun b => ?_)
    (fun b p _ hb => foldl_pres
      (P := fun m => ∃ S, alLookup path m = some S ∧ r ∈ S) _ _ b
      (fun b' c _ hb' => sinkCfgStep_mono hb' c) hb)
  refine foldl_est (P := fun m => ∃ S, alLookup path m = some S ∧ r ∈ S) _ cfgs b
    (modeCfg sinks path) hin (fun b' => ?_)
    (fun b' c _ hb' => sinkCfgStep_mono hb' c)
  cases sinks with
  | false => simpa [sinkCfgStep, modeCfg] using mem_updMap_self b' path r
  | true => simpa [sinkCfgStep, modeCfg] using mem_updMap_self b' path r

/-- C4: for every node configuration and mode, a relation id `r`
appears in the set under descriptor `p` exactly when `r` carries a
directive of the requested mode with descriptor `p`; and in Scenario B,
sink deduction groups relations 0 and 2 under the shared descriptor
`out.dump` and relation 3 alone under `out3.dump`. -/
theorem C4_sink_source_deduction :
    (∀ (node_cfg : NodeCfg) (sinks : Bool) (path : Path) (r : RelId),
      (∃ S, alLookup path (deduce_sinks_or_sources node_cfg sinks) = some S ∧ r ∈ S)
      ↔ declares node_cfg r (modeCfg sinks path))
    ∧ deduce_sinks_or_sources scenarioB true = [(outDump, {0, 2}), (out3Dump, {3})] :=
  ⟨fun node_cfg sinks path r =>
    ⟨sinks_sound node_cfg sinks path r, sinks_complete⟩, by decide⟩

/-- Witness for C4: in Scenario B, relation 2 declares
`Sink(out.dump)`, so sink deduction files it under `out.dump`. -/
theorem C4_sink_source_deduction_witness :
    ∃ S, alLookup outDump (deduce_sinks_or_sources scenarioB true) = some S ∧ 2 ∈ S :=
  (C4_sink_source_deduction.1 scenarioB true outDump 2).mpr
    ⟨[RelCfg.Sink outDump], by decide, by decide⟩

/-! ## TCP senders (C7) -/

/-- When every output-map entry connects and subscribes successfully,
the sender loop succeeds and appends one stream per entry, restricted
to exactly that entry's relation-id set and subscribed to the sender
returned by the bounded-retry connection. -/
theorem tcpSendersLoop_ok {env : Env} :
    ∀ (outputs : List (Addr × Finset RelId)) (server : DDlogServer),
      (∀ p ∈ outputs, ∃ s, env.connect p.1 connTimeoutMs connIntervalMs = Except.ok s
        ∧ env.subTcp s = true) →
      ∃ new, tcpSendersLoop env server outputs
          = Except.ok { server with streams := server.streams ++ new }
        ∧ List.Forall₂ (fun (p : Addr × Finset RelId) (st : Finset RelId × OutChan) =>
            st.1 = p.2 ∧ ∃ s, env.connect p.1 connTimeoutMs connIntervalMs = Except.ok s
              ∧ st.2 = OutChan.tcp s) outputs new
  | [], server, _ => ⟨[], by simp [tcpSendersLoop], List.Forall₂.nil⟩
  | p :: rest, server, h => by
    obtain ⟨s, hconn, hsub⟩ := h p (List.mem_cons_self p rest)
    obtain ⟨new', hok, hfa⟩ := tcpSendersLoop_ok rest
      { server with streams := server.streams ++ [(p.2, OutChan.tcp s)] }
      (fun q hq => h q (List.mem_cons_of_mem p hq))
    refine ⟨(p.2, OutChan.tcp s) :: new', ?_, List.Forall₂.cons ⟨rfl, s, hconn, rfl⟩ hfa⟩
    rw [tcpSendersLoop, hconn]
    simp only [hsub, if_true]
    rw [hok]
    simp [List.append_assoc]

/-- If every entry before the failing one connects and subscribes and
the connection to `a` fails with `e`, the sender loop fails with a
connection error naming `a`, whatever comes after. -/
theorem tcpSendersLoop_err {env : Env} :
    ∀ (pre : List (Addr × Finset RelId)) (server : DDlogServer) (a : Addr)
      (rels : Finset RelId) (post : List (Addr × Finset RelId)) (e : String),
      (∀ p ∈ pre, ∃ s, env.connect p.1 connTimeoutMs connIntervalMs = Except.ok s
        ∧ env.subTcp s = true) →
      env.connect a connTimeoutMs connIntervalMs = Except.error e →
      tcpSendersLoop env server (pre ++ (a, rels) :: post)
        = Except.error ("failed to connect to node " ++ toString a ++ ": " ++ e)
  | [], server, a, rels, post, e, _, herr => by
    rw [List.nil_append, tcpSendersLoop, herr]
  | p :: pre', server, a, rels, post, e, h, herr => by
    obtain ⟨s, hconn, hsub⟩ := h p (List.mem_cons_self p pre')
    rw [List.cons_append, tcpSendersLoop, hconn]
    simp only [hsub, if_true]
    exact tcpSendersLoop_err pre' _ a rels post e
      (fun q hq => h q (List.mem_cons_of_mem p hq)) herr

/-- C7: for every output-map entry, the orchestrator connects through
the bounded-retry port with poll interval 500 ms and timeout 30 s
(= 30000 ms); on success the sender is subscribed to an output stream
restricted to exactly that entry's relation-id set, and on connection
failure orchestration fails with a connection error naming the remote
address. -/
theorem C7_tcp_sender_wiring :
    (∀ (env : Env) (server : DDlogServer) (outputs : Outputs),
      (∀ p ∈ outputs, ∃ s, env.connect p.1 30000 500 = Except.ok s
        ∧ env.subTcp s = true) →
      ∃ new, add_tcp_senders env server outputs
          = Except.ok { server with streams := server.streams ++ new }
        ∧ List.Forall₂ (fun (p : Addr × Finset RelId) (st : Finset RelId × OutChan) =>
            st.1 = p.2 ∧ ∃ s, env.connect p.1 30000 500 = Except.ok s
              ∧ st.2 = OutChan.tcp s) outputs new)
    ∧ (∀ (env : Env) (server : DDlogServer) (pre : Outputs) (a : Addr)
        (rels : Finset RelId) (post : Outputs) (e : String),
      (∀ p ∈ pre, ∃ s, env.connect p.1 30000 500 = Except.ok s
        ∧ env.subTcp s = true) →
      env.connect a 30000 500 = Except.error e →
      add_tcp_senders env server (pre ++ (a, rels) :: post)
        = Except.error ("failed to connect to node " ++ toString a ++ ": " ++ e)) :=
  ⟨fun _ server outputs h => tcpSendersLoop_ok outputs server h,
   fun _ server pre a rels post e h herr =>
     tcpSendersLoop_err pre server a rels post e h herr⟩

/-- A server with nothing attached, as used by concrete witnesses. -/
def server0 : DDlogServer :=
  { program := 0, workers := 2, replay := false, redirects := fun _ => none,
    streams := [] }

/-- Witness for C7: with every connection succeeding, wiring the single
output entry (address 3, relation set {1}) succeeds and appends one
matching stream. -/
theorem C7_tcp_sender_wiring_witness :
    ∃ new, add_tcp_senders envOk server0 [(3, {1})]
        = Except.ok { server0 with streams := server0.streams ++ new }
      ∧ List.Forall₂ (fun (p : Addr × Finset RelId) (st : Finset RelId × OutChan) =>
          st.1 = p.2 ∧ ∃ s, envOk.connect p.1 30000 500 = Except.ok s
            ∧ st.2 = OutChan.tcp s) [(3, {1})] new :=
  C7_tcp_sender_wiring.1 envOk server0 [(3, {1})] (fun p _ => ⟨p.1, rfl, rfl⟩)

/-! ## Engine start and redirects (C8) -/

/-- The sender loop changes only the attached streams of the server. -/
theorem tcpSendersLoop_pres {env : Env} :
    ∀ (outputs : List (Addr × Finset RelId)) (server server' : DDlogServer),
      tcpSendersLoop env server outputs = Except.ok server' →
      server'.program = server.program ∧ server'.workers = server.workers
        ∧ server'.replay = server.replay ∧ server'.redirects = server.redirects
  | [], server, server', h => by
    rw [tcpSendersLoop] at h
    cases h
    exact ⟨rfl, rfl, rfl, rfl⟩
  | p :: rest, server, server', h => by
    rw [tcpSendersLoop] at h
    split at h
    · cases h
    · split at h
      · simpa using tcpSendersLoop_pres rest _ server' h
      · cases h

/-- The file-sink loop changes only the attached streams of the
server. -/
theorem fileSinksLoop_pres {env : Env} :
    ∀ (l : List (Path × Finset RelId)) (server server' : DDlogServer),
      fileSinksLoop env server l = Except.ok server' →
      server'.program = server.program ∧ server'.workers = server.workers
        ∧ server'.replay = server.replay ∧ server'.redirects = server.redirects
  | [], server, server', h => by
    rw [fileSinksLoop] at h
    cases h
    exact ⟨rfl, rfl, rfl, rfl⟩
  | p :: rest, server, server', h => by
    rw [fileSinksLoop] at h
    split at h
    · cases h
    · split at h
      · simpa using fileSinksLoop_pres rest _ server' h
      · cases h

/-- The multiplexer wraps exactly the given server, with no inputs
registered yet. -/
theorem create_txn_mux_ok {env : Env} {server : DDlogServer} {t : TxnMux}
    (h : create_txn_mux env server = Except.ok t) :
    t.server = server ∧ t.inputs = [] := by
  unfold create_txn_mux at h
  split at h
  · cases h
    exact ⟨rfl, rfl⟩
  · cases h

/-- Registering the TCP receiver leaves the wrapped server unchanged. -/
theorem add_tcp_receiver_pres {env : Env} {t t' : TxnMux} {addr : Addr}
    (h : add_tcp_receiver env t addr = Except.ok t') : t'.server = t.server := by
  unfold add_tcp_receiver at h
  split at h
  · cases h
  · split at h
    · cases h
      rfl
    · cases h

/-- Registering file sources leaves the wrapped server unchanged. -/
theorem fileSourcesLoop_pres {env : Env} :
    ∀ (l : List (Path × Finset RelId)) (t t' : TxnMux),
      fileSourcesLoop env t l = Except.ok t' → t'.server = t.server
  | [], t, t', h => by
    rw [fileSourcesLoop] at h
    cases h
    rfl
  | p :: rest, t, t', h => by
    rw [fileSourcesLoop] at h
    split at h
    · simpa using fileSourcesLoop_pres rest _ t' h
    · cases h

/-- C8: the engine is started with a fixed worker parallelism of 2 (a
constant independent of the node configuration) and with replay off,
and the redirect map deduced from that same configuration is installed
at engine-creation time, before any stream, receiver, or source is
attached; the realized pipeline's server still carries exactly those
redirects and worker count. -/
theorem C8_engine_start_and_redirects :
    (∀ (env : Env) (node_cfg : NodeCfg) (server : DDlogServer),
      create_server env node_cfg = Except.ok server →
      server.workers = 2 ∧ server.replay = false
        ∧ server.redirects = deduce_redirects node_cfg ∧ server.streams = [])
    ∧ (∀ (env : Env) (addr : Addr) (node_cfg : NodeCfg) (outputs : Outputs)
        (R : Realization),
      realize env addr node_cfg outputs = Except.ok R →
      R.txnmux.server.redirects = deduce_redirects node_cfg
        ∧ R.txnmux.server.workers = 2 ∧ R.txnmux.server.replay = false) := by
  have hcs : ∀ (env : Env) (node_cfg : NodeCfg) (server : DDlogServer),
      create_server env node_cfg = Except.ok server →
      server.workers = 2 ∧ server.replay = false
        ∧ server.redirects = deduce_redirects node_cfg ∧ server.streams = [] := by
    intro env node_cfg server h
    unfold create_server at h
    cases hrun : env.run 2 false with
    | error e => rw [hrun] at h; cases h
    | ok program =>
      rw [hrun] at h
      cases h
      exact ⟨rfl, rfl, rfl, rfl⟩
  refine ⟨hcs, ?_⟩
  intro env addr node_cfg outputs R h
  unfold realize at h
  split at h
  · cases h
  rename_i server1 h1
  split at h
  · cases h
  rename_i server2 h2
  split at h
  · cases h
  rename_i server3 h3
  split at h
  · cases h
  rename_i t4 h4
  split at h
  · cases h
  rename_i t5 h5
  split at h
  · cases h
  rename_i t6 h6
  cases h
  show t6.server.redirects = deduce_redirects node_cfg
    ∧ t6.server.workers = 2 ∧ t6.server.replay = false
  obtain ⟨hw1, hrep1, hred1, _⟩ := hcs env node_cfg server1 h1
  obtain ⟨_, hw2, hrep2, hred2⟩ := tcpSendersLoop_pres outputs server1 server2 h2
  obtain ⟨_, hw3, hrep3, hred3⟩ :=
    fileSinksLoop_pres (deduce_sinks_or_sources node_cfg true) server2 server3 h3
  obtain ⟨hs4, _⟩ := create_txn_mux_ok h4
  have hs5 := add_tcp_receiver_pres h5
  have hs6 := fileSourcesLoop_pres (deduce_sinks_or_sources node_cfg false) t5 t6 h6
  refine ⟨?_, ?_, ?_⟩
  · rw [hs6, hs5, hs4, hred3, hred2, hred1]
  · rw [hs6, hs5, hs4, hw3, hw2, hw1]
  · rw [hs6, hs5, hs4, hrep3, hrep2, hrep1]

/-- Concrete configuration used by the C8 witness. -/
def cfgC : NodeCfg := [(1, [RelCfg.Input 0])]

/-- The server produced by `create_server` in `envOk` for `cfgC`. -/
def serverC : DDlogServer :=
  { program := 0, workers := 2, replay := false,
    redirects := deduce_redirects cfgC, streams := [] }

/-- Witness for C8: creating the server for `cfgC` in the all-success
environment yields worker count 2, replay off, the deduced redirects,
and no attachments. -/
theorem C8_engine_start_and_redirects_witness :
    serverC.workers = 2 ∧ serverC.replay = false
      ∧ serverC.redirects = deduce_redirects cfgC ∧ serverC.streams = [] :=
  C8_engine_start_and_redirects.1 envOk cfgC serverC rfl

/-! ## Instantiation driver (C5, C6, C10) -/

/-- An `ok` result of the instantiation loop realizes every processed
node configuration, in order, one realization per node past the
accumulator. -/
theorem instLoop_ok_inv {env : Env} {sys_cfg : SysCfg} {addr : Addr}
    {assignment : Assignment} :
    ∀ (l : List NodeCfg) (accumulator rs : List Realization),
      instLoop env sys_cfg addr assignment accumulator l = Except.ok rs →
      ∃ rs', rs = accumulator ++ rs'
        ∧ List.Forall₂
            (fun cfg r => realizeFor env sys_cfg addr assignment cfg = Except.ok r)
            l rs'
  | [], accumulator, rs, h => by
    rw [instLoop] at h
    cases h
    exact ⟨[], by simp, List.Forall₂.nil⟩
  | cfg :: rest, accumulator, rs, h => by
    rw [instLoop] at h
    split at h
    · cases h
    · rename_i r hr
      obtain ⟨rs', hrs, hfa⟩ := instLoop_ok_inv rest (accumulator ++ [r]) rs h
      exact ⟨r :: rs', by simpa [List.append_assoc] using hrs,
        List.Forall₂.cons hr hfa⟩

/-- If every node configuration in the list realizes successfully, the
instantiation loop succeeds with one realization per node. -/
theorem instLoop_all_ok {env : Env} {sys_cfg : SysCfg} {addr : Addr}
    {assignment : Assignment} :
    ∀ (l : List NodeCfg) (accumulator : List Realization),
      (∀ cfg ∈ l, ∃ r, realizeFor env sys_cfg addr assignment cfg = Except.ok r) →
      ∃ rs', instLoop env sys_cfg addr assignment accumulator l
          = Except.ok (accumulator ++ rs')
        ∧ List.Forall₂
            (fun cfg r => realizeFor env sys_cfg addr assignment cfg = Except.ok r)
            l rs'
  | [], accumulator, _ => ⟨[], by rw [instLoop]; simp, List.Forall₂.nil⟩
  | cfg :: rest, accumulator, h => by
    obtain ⟨r, hr⟩ := h cfg (List.mem_cons_self cfg rest)
    obtain ⟨rs', hok, hfa⟩ := instLoop_all_ok rest (accumulator ++ [r])
      (fun q hq => h q (List.mem_cons_of_mem cfg hq))
    refine ⟨r :: rs', ?_, List.Forall₂.cons hr hfa⟩
    rw [instLoop, hr]
    simpa [List.append_assoc] using hok

/-- If every node configuration before the failing one realizes and
realizing `c` fails with `e`, the instantiation loop fails with `e`,
whatever nodes come after. -/
theorem instLoop_err {env : Env} {sys_cfg : SysCfg} {addr : Addr}
    {assignment : Assignment} :
    ∀ (pre : List NodeCfg) (accumulator : List Realization) (c : NodeCfg)
      (post : List NodeCfg) (e : String),
      (∀ cfg ∈ pre, ∃ r, realizeFor env sys_cfg addr assignment cfg = Except.ok r) →
      realizeFor env sys_cfg addr assignment c = Except.error e →
      instLoop env sys_cfg addr assignment accumulator (pre ++ c :: post)
        = Except.error e
  | [], accumulator, c, post, e, _, herr => by
    rw [List.nil_append, instLoop, herr]
  | cfg :: pre', accumulator, c, post, e, h, herr => by
    obtain ⟨r, hr⟩ := h cfg (List.mem_cons_self cfg pre')
    rw [List.cons_append, instLoop, hr]
    exact instLoop_err pre' (accumulator ++ [r]) c post e
      (fun q hq => h q (List.mem_cons_of_mem cfg hq)) herr

/-- C5: instantiation is fail-fast and atomic: if the selected node
configurations split as `pre ++ c :: post` with every node in `pre`
realizing successfully and `c` failing with error `e`, the whole call
returns `error e` — uniformly in `post`, so the remaining nodes are
never attempted and no realization is returned; conversely an `ok`
result realizes every selected node, so the caller never observes
partial success. -/
theorem C5_atomic_fail_fast :
    (∀ (env : Env) (sys_cfg : SysCfg) (addr : Addr) (assignment : Assignment)
        (pre : List NodeCfg) (c : NodeCfg) (post : List NodeCfg) (e : String),
      selectCfgs sys_cfg addr assignment = pre ++ c :: post →
      (∀ cfg ∈ pre, ∃ r, realizeFor env sys_cfg addr assignment cfg = Except.ok r) →
      realizeFor env sys_cfg addr assignment c = Except.error e →
      instantiate env sys_cfg addr assignment = Except.error e)
    ∧ (∀ (env : Env) (sys_cfg : SysCfg) (addr : Addr) (assignment : Assignment)
        (rs : List Realization),
      instantiate env sys_cfg addr assignment = Except.ok rs →
      List.Forall₂
        (fun cfg r => realizeFor env sys_cfg addr assignment cfg = Except.ok r)
        (selectCfgs sys_cfg addr assignment) rs) := by
  constructor
  · intro env sys_cfg addr assignment pre c post e hsel hpre herr
    unfold instantiate
    rw [hsel]
    exact instLoop_err pre [] c post e hpre herr
  · intro env sys_cfg addr assignment rs h
    obtain ⟨rs', hrs, hfa⟩ := instLoop_ok_inv (selectCfgs sys_cfg addr assignment) [] rs h
    simpa [hrs] using hfa

/-- System configuration used by the C5 witness: one logical node with
a single relation carrying no directives. -/
def sysOne : SysCfg := [(0, [(0, [])])]

/-- Assignment used by the C5 witness: logical node 0 at address 7. -/
def asgOne : Assignment := [(0, 7)]

/-- Witness for C5: with the engine failing to start, instantiating the
single assigned node fails with the engine's error. -/
theorem C5_atomic_fail_fast_witness :
    instantiate envBad sysOne 7 asgOne = Except.error "engine" :=
  C5_atomic_fail_fast.1 envBad sysOne 7 asgOne [] [(0, [])] [] "engine" rfl
    (fun cfg hc => absurd hc (List.not_mem_nil cfg)) rfl

/-- C6: the driver selects exactly the logical nodes whose assignment
maps to the queried address (in assignment iteration order, skipping
unconfigured nodes) and, when each realizes, returns exactly one
realization per selected node in that order; an address with no
assigned logical node yields the empty collection without error. -/
theorem C6_driver_selection :
    (∀ (env : Env) (sys_cfg : SysCfg) (addr : Addr) (assignment : Assignment),
      (∀ cfg ∈ selectCfgs sys_cfg addr assignment,
        ∃ r, realizeFor env sys_cfg addr assignment cfg = Except.ok r) →
      ∃ rs, instantiate env sys_cfg addr assignment = Except.ok rs
        ∧ List.Forall₂
            (fun cfg r => realizeFor env sys_cfg addr assignment cfg = Except.ok r)
            (selectCfgs sys_cfg addr assignment) rs)
    ∧ (∀ (env : Env) (sys_cfg : SysCfg) (addr : Addr) (assignment : Assignment),
      (∀ p ∈ assignment, p.2 ≠ addr) →
      instantiate env sys_cfg addr assignment = Except.ok []) := by
  constructor
  · intro env sys_cfg addr assignment h
    obtain ⟨rs', hok, hfa⟩ := instLoop_all_ok (selectCfgs sys_cfg addr assignment) [] h
    exact ⟨rs', by simpa using hok, hfa⟩
  · intro env sys_cfg addr assignment h
    have hsel : selectCfgs sys_cfg addr assignment = [] := by
      unfold selectCfgs
      refine List.filterMap_eq_nil_iff.mpr (fun p hp => ?_)
      rw [if_neg (h p hp)]
    unfold instantiate
    rw [hsel, instLoop]

/-- Witness for C6: instantiating at address 5 under an assignment
whose only entry maps elsewhere yields the empty collection. -/
theorem C6_driver_selection_witness :
    instantiate envOk [] 5 [(0, 9)] = Except.ok [] :=
  C6_driver_selection.2 envOk [] 5 [(0, 9)] (by decide)

/-- A lookup misses exactly when no entry carries the key. -/
theorem alLookup_eq_none {κ β : Type} [DecidableEq κ] (k : κ) :
    ∀ (l : List (κ × β)), alLookup k l = none ↔ ∀ p ∈ l, k ≠ p.1
  | [] => by simp [alLookup]
  | p :: rest => by
    rw [alLookup]
    by_cases hk : k = p.1
    · simp [hk]
    · rw [if_neg hk, alLookup_eq_none k rest]
      constructor
      · intro h q hq
        rcases List.mem_cons.mp hq with hqp | hq'
        · subst hqp; exact hk
        · exact h q hq'
      · intro h q hq
        exact h q (List.mem_cons_of_mem p hq)

/-- Prepending an assignment entry for a logical node absent from the
system configuration does not change the scanned remote nodes. -/
theorem othersOf_skip {addr a : Addr} {sys_cfg : SysCfg} {assignment : Assignment}
    {uuid : Node} (h : alLookup uuid sys_cfg = none) :
    othersOf addr sys_cfg ((uuid, a) :: assignment) = othersOf addr sys_cfg assignment := by
  unfold othersOf
  refine List.filterMap_congr (fun p hp => ?_)
  have hne : p.1 ≠ uuid := fun hh =>
    ((alLookup_eq_none uuid sys_cfg).mp h p hp) hh.symm
  rw [show alLookup p.1 ((uuid, a) :: assignment) = alLookup p.1 assignment from by
    rw [alLookup, if_neg hne]]

/-- Prepending an assignment entry for a logical node absent from the
system configuration does not change any deduced output map. -/
theorem deduce_outputs_skip {addr a : Addr} {sys_cfg : SysCfg}
    {assignment : Assignment} {uuid : Node} (h : alLookup uuid sys_cfg = none)
    (node_cfg : NodeCfg) :
    deduce_outputs addr node_cfg sys_cfg ((uuid, a) :: assignment)
      = deduce_outputs addr node_cfg sys_cfg assignment := by
  unfold deduce_outputs outRelStep
  rw [othersOf_skip h]

/-- The instantiation loop depends on the assignment only through the
realizations of the processed node configurations. -/
theorem instLoop_congr {env : Env} {sys_cfg : SysCfg} {addr : Addr}
    {asg1 asg2 : Assignment} :
    ∀ (l : List NodeCfg) (accumulator : List Realization),
      (∀ cfg ∈ l, realizeFor env sys_cfg addr asg1 cfg
        = realizeFor env sys_cfg addr asg2 cfg) →
      instLoop env sys_cfg addr asg1 accumulator l
        = instLoop env sys_cfg addr asg2 accumulator l
  | [], accumulator, _ => by rw [instLoop, instLoop]
  | cfg :: rest, accumulator, h => by
    rw [instLoop, instLoop, h cfg (List.mem_cons_self cfg rest)]
    cases hr : realizeFor env sys_cfg addr asg2 cfg with
    | error e => rfl
    | ok r =>
      exact instLoop_congr rest (accumulator ++ [r])
        (fun q hq => h q (List.mem_cons_of_mem cfg hq))

/-- C10: a logical node whose assignment maps to the local address but
which has no entry in the system configuration is silently skipped:
instantiation behaves exactly as if the assignment entry were absent —
no realization is produced for it and no error is returned — so the
returned collection can be smaller than the number of locally assigned
logical nodes (concretely, one assigned but unconfigured node yields
the empty collection). -/
theorem C10_unconfigured_node_skipped :
    (∀ (env : Env) (sys_cfg : SysCfg) (addr : Addr) (assignment : Assignment)
        (uuid : Node),
      alLookup uuid sys_cfg = none →
      instantiate env sys_cfg addr ((uuid, addr) :: assignment)
        = instantiate env sys_cfg addr assignment)
    ∧ instantiate envOk [] 5 [(0, 5)] = Except.ok [] := by
  constructor
  · intro env sys_cfg addr assignment uuid h
    have hsel : selectCfgs sys_cfg addr ((uuid, addr) :: assignment)
        = selectCfgs sys_cfg addr assignment := by
      unfold selectCfgs
      rw [List.filterMap_cons]
      simp [h]
    unfold instantiate
    rw [hsel]
    exact instLoop_congr _ []
      (fun cfg _ => by unfold realizeFor; rw [deduce_outputs_skip h cfg])
  · rfl

/-- Witness for C10: an assignment entry at the local address for an
unconfigured logical node can be dropped without changing the result. -/
theorem C10_unconfigured_node_skipped_witness :
    instantiate envOk [] 5 [(0, 5)] = instantiate envOk [] 5 [] :=
  C10_unconfigured_node_skipped.1 envOk [] 5 [] 0 rfl

end DDlog
